import Mathlib

/-!
Verification model of `client/network/src/block_requests.rs` (Substrate block
request network behaviour).  The Rust source is shallowly embedded: machine
integers are `Nat`, byte strings are `List Nat`, the external SCALE codec and
the protobuf encoder are modelled as injective functions (respectively as a
function parameter), `Instant`/`Delay` are absolute `Nat` times, and the
`HashMap` of peers is an association list.  Fallible Rust code returns
`Except`.
-/

namespace BlockRequestsModel

/-- Byte strings on the wire.  We model bytes abstractly as `List Nat`. -/
abbrev Bytes : Type := List Nat

/-- Peer identifier (`PeerId`). -/
abbrev PeerId : Type := Nat

/-- Connection identifier (`ConnectionId`). -/
abbrev ConnectionId : Type := Nat

/-- Abstract block hash type (`B::Hash`). -/
abbrev Hash : Type := Nat

/-- Abstract block number type (`NumberFor<B>`), a `Nat` since the source only
needs `+ 1` and `is_zero`. -/
abbrev BlockNumber : Type := Nat

/-- Abstract extrinsic (`B::Extrinsic`). -/
abbrev Extrinsic : Type := Nat

/-- Abstract error type of the chain client (`sp_blockchain::Error`). -/
abbrev ChainError : Type := Nat

/-- A block header (`B::Header`).  `hashVal` stands for `header.hash()`,
`number` for `*header.number()`, `parent_hash` for `*header.parent_hash()`. -/
structure Header where
  number : BlockNumber
  parent_hash : Hash
  hashVal : Hash
deriving DecidableEq, Repr

/-- `sp_runtime::generic::BlockId`. -/
inductive BlockId where
  | Hash (h : Hash)
  | Number (n : BlockNumber)
deriving DecidableEq, Repr

/-- The chain client interface (`crate::chain::Client`), restricted to the
three read operations the behaviour uses. -/
structure Client where
  header : BlockId → Except ChainError (Option Header)
  block_body : BlockId → Except ChainError (Option (List Extrinsic))
  justification : BlockId → Except ChainError (Option Bytes)

/-- Rust `Result::unwrap_or`. -/
def exceptUnwrapOr {ε α : Type} (x : Except ε α) (d : α) : α :=
  match x with
  | .ok a => a
  | .error _ => d

/-! ### Modelled SCALE codec

The `codec` crate is external to this repository.  We model `Encode`/`Decode`
for the abstract hash, number, header and extrinsic types by injective
encodings into `Bytes` with matching decoders; `[]` is never a valid
encoding, so decode failures are expressible. -/

/-- Modelled from the spec: SCALE encoding of a block hash (the codec crate is
external); an injective one-element encoding. -/
def encodeHash (h : Hash) : Bytes := [h]

/-- Modelled from the spec: SCALE decoding of a block hash. -/
def decodeHash (b : Bytes) : Except Unit Hash :=
  match b with
  | [h] => .ok h
  | _ => .error ()

/-- Modelled from the spec: SCALE encoding of a block number. -/
def encodeNumber (n : BlockNumber) : Bytes := [n]

/-- Modelled from the spec: SCALE decoding of a block number. -/
def decodeNumber (b : Bytes) : Except Unit BlockNumber :=
  match b with
  | [n] => .ok n
  | _ => .error ()

/-- Modelled from the spec: SCALE encoding of a header. -/
def encodeHeader (h : Header) : Bytes := [h.number, h.parent_hash, h.hashVal]

/-- Modelled from the spec: SCALE decoding of a header. -/
def decodeHeader (b : Bytes) : Except Unit Header :=
  match b with
  | [n, p, hh] => .ok { number := n, parent_hash := p, hashVal := hh }
  | _ => .error ()

/-- Modelled from the spec: SCALE encoding of an extrinsic. -/
def encodeExtrinsic (e : Extrinsic) : Bytes := [e]

/-- Modelled from the spec: SCALE decoding of an extrinsic. -/
def decodeExtrinsic (b : Bytes) : Except Unit Extrinsic :=
  match b with
  | [e] => .ok e
  | _ => .error ()

/-! ### Block attributes

`protocol::message::BlockAttributes` lives in `protocol/message.rs`, not in
this snapshot. -/

/-- Modelled from the spec (section 6: attribute flag encoding): the set of
block attribute flags {HEADER, BODY, RECEIPT, MESSAGE_QUEUE, JUSTIFICATION}. -/
structure BlockAttributes where
  header : Bool
  body : Bool
  receipt : Bool
  message_queue : Bool
  justification : Bool
deriving DecidableEq, Repr

/-- Modelled from the spec: `BlockAttributes::to_be_u32` places the five flag
bits (HEADER = 1, BODY = 2, RECEIPT = 4, MESSAGE_QUEUE = 8,
JUSTIFICATION = 16) in the most significant byte of a big-endian `u32`. -/
def BlockAttributes.to_be_u32 (a : BlockAttributes) : Nat :=
  ((if a.header then 1 else 0) + (if a.body then 2 else 0) +
   (if a.receipt then 4 else 0) + (if a.message_queue then 8 else 0) +
   (if a.justification then 16 else 0)) * 2 ^ 24

/-- Modelled from the spec: `BlockAttributes::from_be_u32`; unused bits must
be zero, otherwise decoding fails. -/
def BlockAttributes.from_be_u32 (n : Nat) : Except Unit BlockAttributes :=
  let bits := n / 2 ^ 24
  if n % 2 ^ 24 = 0 ∧ bits < 32 then
    .ok { header := bits % 2 = 1
        , body := bits / 2 % 2 = 1
        , receipt := bits / 4 % 2 = 1
        , message_queue := bits / 8 % 2 = 1
        , justification := bits / 16 % 2 = 1 }
  else
    .error ()

/-! ### Wire protobuf schema (`schema::v1`) -/

/-- `schema::v1::block_request::FromBlock`, the `oneof from_block` arms. -/
inductive ProtoFromBlock where
  | Hash (b : Bytes)
  | Number (b : Bytes)
deriving DecidableEq, Repr

/-- `schema::v1::BlockRequest`. -/
structure ProtoBlockRequest where
  fields : Nat
  from_block : Option ProtoFromBlock
  to_block : Bytes
  direction : Int
  max_blocks : Nat
deriving DecidableEq, Repr

/-- `schema::v1::BlockData`. -/
structure ProtoBlockData where
  hash : Bytes
  header : Bytes
  body : List Bytes
  receipt : Bytes
  message_queue : Bytes
  justification : Bytes
  is_empty_justification : Bool
deriving DecidableEq, Repr

/-- `schema::v1::BlockResponse`. -/
structure ProtoBlockResponse where
  blocks : List ProtoBlockData
deriving DecidableEq, Repr

/-- `schema::v1::Direction` as used after validation (wire values:
Ascending = 0, Descending = 1). -/
inductive Direction where
  | Ascending
  | Descending
deriving DecidableEq, Repr

/-! ### Inbound request responder (`on_block_request`) -/

/-- Errors of the responder (`Error = Box<dyn std::error::Error>`), split by
origin so that propagation can be stated precisely. -/
inductive RespError where
  | codec
  | missingFromBlock
  | badDirection (d : Int)
  | badAttributes
  | chain (e : ChainError)
deriving DecidableEq, Repr

/-- The `schema::v1::BlockData` record assembled for one header in the walk of
`on_block_request` (source lines 393-423): `justification` is the already
fetched result of `chain.justification` (or `none` when the JUSTIFICATION
flag is unset), `body?` the fetched body (or `none` when BODY is unset). -/
def blockDataOf (get_header get_body : Bool) (header : Header)
    (justification : Option Bytes) (body? : Option (List Extrinsic)) :
    ProtoBlockData :=
  { hash := encodeHash header.hashVal
  , header := if get_header then encodeHeader header else []
  , body := if get_body then (body?.getD []).map encodeExtrinsic else []
  , receipt := []
  , message_queue := []
  , justification := justification.getD []
  , is_empty_justification := (justification.map List.isEmpty).getD false }

/-- The `while let Some(header) = self.chain.header(block_id).unwrap_or(None)`
loop of `on_block_request` (source lines 388-438).  Each iteration either
stops or appends one record, so `max_blocks + 1 - blocks.length` iterations
always suffice; `fuel` makes the recursion structural and the caller passes
`max_blocks + 1`, which is never exhausted. -/
def walkLoop (chain : Client) (get_header get_body get_just : Bool)
    (direction : Direction) (max_blocks : Nat) :
    Nat → BlockId → List ProtoBlockData → Except RespError (List ProtoBlockData)
  | 0, _, blocks => .ok blocks
  | fuel + 1, block_id, blocks =>
    match exceptUnwrapOr (chain.header block_id) none with
    | none => .ok blocks
    | some header =>
      if max_blocks ≤ blocks.length then .ok blocks
      else
        match (if get_just then chain.justification (BlockId.Hash header.hashVal) else .ok none) with
        | .error e => .error (.chain e)
        | .ok justification =>
          match (if get_body then chain.block_body (BlockId.Hash header.hashVal) else .ok none) with
          | .error e => .error (.chain e)
          | .ok body? =>
            match direction with
            | .Ascending =>
              walkLoop chain get_header get_body get_just direction max_blocks
                fuel (BlockId.Number (header.number + 1))
                (blocks ++ [blockDataOf get_header get_body header justification body?])
            | .Descending =>
              if header.number = 0 then
                .ok (blocks ++ [blockDataOf get_header get_body header justification body?])
              else
                walkLoop chain get_header get_body get_just direction max_blocks
                  fuel (BlockId.Hash header.parent_hash)
                  (blocks ++ [blockDataOf get_header get_body header justification body?])

/-- Configuration options (`Config`), durations as `Nat`. -/
structure Config where
  max_block_data_response : Nat
  max_request_len : Nat
  max_response_len : Nat
  inactivity_timeout : Nat
  request_timeout : Nat
  protocol : Bytes
deriving DecidableEq, Repr

/-- Resolution of the wire `from_block` field into a `BlockId` (source lines
348-362): the field must be present and its bytes must decode. -/
def resolveFromBlock (fb? : Option ProtoFromBlock) : Except RespError BlockId :=
  match fb? with
  | some (.Hash h) =>
    match decodeHash h with
    | .ok x => .ok (BlockId.Hash x)
    | .error _ => .error .codec
  | some (.Number n) =>
    match decodeNumber n with
    | .ok x => .ok (BlockId.Number x)
    | .error _ => .error .codec
  | none => .error .missingFromBlock

/-- Validation of the wire direction integer (source lines 371-379). -/
def resolveDirection (d : Int) : Except RespError Direction :=
  if d = 0 then .ok .Ascending
  else if d = 1 then .ok .Descending
  else .error (.badDirection d)

/-- The effective cap on the number of returned blocks (source lines
364-369). -/
def effectiveMaxBlocks (cfg : Config) (request : ProtoBlockRequest) : Nat :=
  if request.max_blocks = 0 then cfg.max_block_data_response
  else min request.max_blocks cfg.max_block_data_response

/-- `BlockRequests::on_block_request` (source lines 334-441): resolve the
starting block id, compute the effective cap, validate direction and
attribute flags, then walk the chain. -/
def on_block_request (cfg : Config) (chain : Client)
    (request : ProtoBlockRequest) : Except RespError ProtoBlockResponse :=
  match resolveFromBlock request.from_block with
  | .error e => .error e
  | .ok from_block_id =>
    match resolveDirection request.direction with
    | .error e => .error e
    | .ok direction =>
      match BlockAttributes.from_be_u32 request.fields with
      | .error _ => .error .badAttributes
      | .ok attributes =>
        match walkLoop chain attributes.header attributes.body
            attributes.justification direction (effectiveMaxBlocks cfg request)
            (effectiveMaxBlocks cfg request + 1) from_block_id [] with
        | .error e => .error e
        | .ok blocks => .ok { blocks := blocks }

/-! ### Internal message types (`protocol::message`)

`protocol/message.rs` is not part of this snapshot; the shapes below are
modelled from the spec (section 3, data model). -/

/-- Modelled from the spec: `message::FromBlock<Hash, Number>`. -/
inductive FromBlock where
  | Hash (h : Hash)
  | Number (n : BlockNumber)
deriving DecidableEq, Repr

/-- Modelled from the spec: `message::BlockRequest<B>` — id, attribute flags,
starting point, advisory end hash, direction and optional cap. -/
structure BlockRequest where
  id : Nat
  fields : BlockAttributes
  from_block : FromBlock
  to_block : Option Hash
  direction : Direction
  max : Option Nat
deriving DecidableEq, Repr

/-- Modelled from the spec: `message::BlockData<B>`, the decoded form of one
wire block record. -/
structure BlockData where
  hash : Hash
  header : Option Header
  body : Option (List Extrinsic)
  receipt : Option Bytes
  message_queue : Option Bytes
  justification : Option Bytes
deriving DecidableEq, Repr

/-- Modelled from the spec: `message::BlockResponse<B>`. -/
structure BlockResponse where
  id : Nat
  blocks : List BlockData
deriving DecidableEq, Repr

/-! ### Behaviour state -/

/-- `OngoingRequest`: `emitted` is the absolute time of `Instant::now()` at
emission, `deadline` the absolute expiry of the `Delay` armed with
`config.request_timeout`. -/
structure OngoingRequest where
  emitted : Nat
  request : BlockRequest
  deadline : Nat
deriving DecidableEq, Repr

/-- Local tracking of a libp2p connection (`Connection<B>`). -/
structure Connection where
  id : ConnectionId
  ongoing_request : Option OngoingRequest
deriving DecidableEq, Repr

/-- Events generated by the behaviour (`Event<B>`), durations as `Nat`. -/
inductive Event where
  | AnsweredRequest (peer : PeerId) (total_handling_time : Nat)
  | Response (peer : PeerId) (original_request : BlockRequest)
      (response : BlockResponse) (request_duration : Nat)
  | RequestCancelled (peer : PeerId) (original_request : BlockRequest)
      (request_duration : Nat)
  | RequestTimeout (peer : PeerId) (original_request : BlockRequest)
      (request_duration : Nat)
deriving DecidableEq, Repr

/-- `NetworkBehaviourAction` as enqueued on `pending_events`: either a
`NotifyHandler` carrying an `OutboundProtocol` (serialized request bytes,
original request, max response size, protocol name) or a `GenerateEvent`. -/
inductive Action where
  | NotifyHandler (peer : PeerId) (conn : ConnectionId) (request : Bytes)
      (original_request : BlockRequest) (max_response_size : Nat)
      (protocol : Bytes)
  | GenerateEvent (e : Event)
deriving DecidableEq, Repr

/-- The state of the `BlockRequests` behaviour.  The `chain` field (a table of
functions, passed to `on_block_request` directly) and the `outgoing` future
set (asynchronous byte writes) are kept outside this record so that states
have decidable equality; the `peers` HashMap is an association list. -/
structure BlockRequests where
  config : Config
  peers : List (PeerId × List Connection)
  pending_events : List Action
deriving DecidableEq, Repr

/-- `SendRequestOutcome<B>`; the encode error is modelled as a `Nat` code. -/
inductive SendRequestOutcome where
  | Ok
  | Replaced (previous : BlockRequest) (request_duration : Nat)
  | NotConnected
  | EncodeError (e : Nat)
deriving DecidableEq, Repr

/-- `self.peers.get(peer)` on the association list. -/
def findPeer (peers : List (PeerId × List Connection)) (p : PeerId) :
    Option (List Connection) :=
  (peers.find? (fun e => e.1 == p)).map (fun e => e.2)

/-- Replace the connection list stored for peer `p` (in-place update of the
HashMap entry). -/
def setPeer (peers : List (PeerId × List Connection)) (p : PeerId)
    (conns : List Connection) : List (PeerId × List Connection) :=
  peers.map (fun e => if e.1 == p then (p, conns) else e)

/-- `self.peers.remove(peer)`. -/
def removePeer (peers : List (PeerId × List Connection)) (p : PeerId) :
    List (PeerId × List Connection) :=
  peers.filter (fun e => !(e.1 == p))

/-- `build_protobuf_block_request` (source lines 823-845). -/
def build_protobuf_block_request (attributes : BlockAttributes)
    (from_block : FromBlock) (to_block : Option Hash) (direction : Direction)
    (max_blocks : Option Nat) : ProtoBlockRequest :=
  { fields := attributes.to_be_u32
  , from_block := some (match from_block with
      | .Hash h => ProtoFromBlock.Hash (encodeHash h)
      | .Number n => ProtoFromBlock.Number (encodeNumber n))
  , to_block := (to_block.map encodeHash).getD []
  , direction := match direction with
      | .Ascending => 0
      | .Descending => 1
  , max_blocks := max_blocks.getD 0 }

/-- Connection selection of `send_request` (source lines 262-278): prefer the
first connection with an existing request, else the first connection; `none`
when the list is empty.  Returns the index together with the connection. -/
def selectConnection (conns : List Connection) : Option (Nat × Connection) :=
  match conns.enum.find? (fun ic => ic.2.ongoing_request.isSome) with
  | some ic => some ic
  | none => conns.enum.head?

/-- `BlockRequests::send_request` (source lines 260-331).  `enc` models the
external prost protobuf encoder (`protobuf_rq.encode(&mut buf)`), `now` the
value of `Instant::now()`. -/
def send_request (enc : ProtoBlockRequest → Except Nat Bytes) (now : Nat)
    (s : BlockRequests) (target : PeerId) (req : BlockRequest) :
    BlockRequests × SendRequestOutcome :=
  match findPeer s.peers target with
  | none => (s, .NotConnected)
  | some conns =>
    match selectConnection conns with
    | none => (s, .NotConnected)
    | some (i, connection) =>
      let protobuf_rq :=
        build_protobuf_block_request req.fields req.from_block req.to_block
          req.direction req.max
      match enc protobuf_rq with
      | .error err => (s, .EncodeError err)
      | .ok buf =>
        let previous_request := connection.ongoing_request
        let conns := conns.set i
          { id := connection.id
          , ongoing_request := some
              { emitted := now
              , request := req
              , deadline := now + s.config.request_timeout } }
        let s1 : BlockRequests :=
          { s with
            peers := setPeer s.peers target conns
          , pending_events := s.pending_events ++
              [Action.NotifyHandler target connection.id buf req
                s.config.max_response_len s.config.protocol] }
        match previous_request with
        | some prev => (s1, .Replaced prev.request (now - prev.emitted))
        | none => (s1, .Ok)

/-- `inject_connection_established` (source lines 473-480): append a fresh
connection to the peer's entry, creating the entry if needed. -/
def inject_connection_established (s : BlockRequests) (peer_id : PeerId)
    (id : ConnectionId) : BlockRequests :=
  match findPeer s.peers peer_id with
  | some conns =>
    { s with
      peers := setPeer s.peers peer_id (conns ++ [{ id := id, ongoing_request := none }]) }
  | none =>
    { s with peers := s.peers ++ [(peer_id, [{ id := id, ongoing_request := none }])] }

/-- `inject_connection_closed` (source lines 482-520): remove the connection;
if it carried an ongoing request, enqueue `RequestCancelled`; drop the peer
entry if its list becomes empty.  Lookup failures only log. -/
def inject_connection_closed (now : Nat) (s : BlockRequests) (peer_id : PeerId)
    (id : ConnectionId) : BlockRequests :=
  match findPeer s.peers peer_id with
  | none => s
  | some entry =>
    match entry.findIdx? (fun c => c.id == id) with
    | none => s
    | some pos =>
      match entry[pos]? with
      | none => s
      | some conn =>
        let entry1 := entry.eraseIdx pos
        let s1 :=
          match conn.ongoing_request with
          | some ongoing =>
            { s with pending_events := s.pending_events ++
                [Action.GenerateEvent (Event.RequestCancelled peer_id
                  ongoing.request (now - ongoing.emitted))] }
          | none => s
        if entry1.isEmpty then
          { s1 with peers := removePeer s1.peers peer_id }
        else
          { s1 with peers := setPeer s1.peers peer_id entry1 }

/-- Decoding of one wire `BlockData` back to the internal representation
(source lines 612-644). -/
def decode_block_data (original_request : BlockRequest)
    (block_data : ProtoBlockData) : Except Unit BlockData :=
  match decodeHash block_data.hash with
  | .error e => .error e
  | .ok hash =>
    match (if !block_data.header.isEmpty then
        (decodeHeader block_data.header).map some
      else .ok none) with
    | .error e => .error e
    | .ok header =>
      match (if original_request.fields.body then
          (block_data.body.mapM decodeExtrinsic).map some
        else .ok none) with
      | .error e => .error e
      | .ok body =>
        .ok
          { hash := hash
          , header := header
          , body := body
          , receipt :=
              if !block_data.message_queue.isEmpty then some block_data.receipt
              else none
          , message_queue :=
              if !block_data.message_queue.isEmpty then some block_data.message_queue
              else none
          , justification :=
              if !block_data.justification.isEmpty then some block_data.justification
              else if block_data.is_empty_justification then some []
              else none }

/-- Decoding of all block records of a response (the `collect` over
`response.blocks` at source lines 612-645). -/
def decode_blocks (original_request : BlockRequest)
    (blocks : List ProtoBlockData) : Except Unit (List BlockData) :=
  blocks.mapM (decode_block_data original_request)

/-- The `NodeEvent::Response` arm of `inject_event` (source lines 563-665):
find the peer, the connection with the given id and its ongoing request; on a
value match clear the slot, decode the blocks, and on success enqueue
`Event::Response`; in every other case the state is returned unchanged (the
source only logs). -/
def inject_event_response (now : Nat) (s : BlockRequests) (peer : PeerId)
    (connection_id : ConnectionId) (original_request : BlockRequest)
    (response : ProtoBlockResponse) : BlockRequests :=
  match findPeer s.peers peer with
  | none => s
  | some connections =>
    match connections.findIdx? (fun c => c.id == connection_id) with
    | none => s
    | some i =>
      match connections[i]? with
      | none => s
      | some connection =>
        match connection.ongoing_request with
        | none => s
        | some ongoing_request =>
          if ongoing_request.request = original_request then
            let request_duration := now - ongoing_request.emitted
            let connections1 := connections.set i
              { id := connection.id, ongoing_request := none }
            let s1 := { s with peers := setPeer s.peers peer connections1 }
            match decode_blocks original_request response.blocks with
            | .ok blocks =>
              { s1 with pending_events := s1.pending_events ++
                  [Action.GenerateEvent (Event.Response peer original_request
                    { id := original_request.id, blocks := blocks }
                    request_duration)] }
            | .error _ => s1
          else s

/-- First connection of a list whose ongoing request's timeout has expired at
time `now`, together with that request (the inner loop of `poll`, source
lines 677-701). -/
def firstExpired (now : Nat) : List Connection → Option OngoingRequest
  | [] => none
  | c :: rest =>
    match c.ongoing_request with
    | some rq => if rq.deadline ≤ now then some rq else firstExpired now rest
    | none => firstExpired now rest

/-- Clear the slot of the first connection whose ongoing request has expired
(the effect of the `poll` timeout scan on the connection list). -/
def clearFirstExpired (now : Nat) : List Connection → List Connection
  | [] => []
  | c :: rest =>
    match c.ongoing_request with
    | some rq =>
      if rq.deadline ≤ now then { id := c.id, ongoing_request := none } :: rest
      else c :: clearFirstExpired now rest
    | none => c :: clearFirstExpired now rest

/-- The request timeout scan of `poll` (source lines 677-701): the first
expired ongoing request found in the peer table is cleared and yields a
`RequestTimeout` event. -/
def poll_timeouts (now : Nat) :
    List (PeerId × List Connection) →
    Option Event × List (PeerId × List Connection)
  | [] => (none, [])
  | (p, conns) :: rest =>
    match firstExpired now conns with
    | some rq =>
      (some (Event.RequestTimeout p rq.request (now - rq.emitted)),
       (p, clearFirstExpired now conns) :: rest)
    | none =>
      let (ev, rest1) := poll_timeouts now rest
      (ev, (p, conns) :: rest1)

/-! ## Concrete sample data

A small chain with blocks numbered 0..4 (hash of block `n` is `100 + n`,
parent hash `99 + n`), used to exercise the model in witnesses. -/

/-- A concrete five-block chain client: block `n` (0 ≤ n ≤ 4) has hash
`100 + n`; block with hash 102 has a present-and-empty justification, hash
103 a non-empty one. -/
def sampleChain : Client :=
  { header := fun bid =>
      match bid with
      | .Number n =>
        if n ≤ 4 then .ok (some { number := n, parent_hash := 99 + n, hashVal := 100 + n })
        else .ok none
      | .Hash h =>
        if 100 ≤ h ∧ h ≤ 104 then .ok (some { number := h - 100, parent_hash := h - 1, hashVal := h })
        else .ok none
  , block_body := fun _ => .ok (some [7])
  , justification := fun bid =>
      match bid with
      | .Hash h =>
        if h = 102 then .ok (some [])
        else if h = 103 then .ok (some [42])
        else .ok none
      | .Number _ => .ok none }

/-- A sample configuration with a response cap of 2 blocks. -/
def sampleConfig : Config :=
  { max_block_data_response := 2, max_request_len := 1024
  , max_response_len := 4096, inactivity_timeout := 15, request_timeout := 40
  , protocol := [1, 2] }

/-- Sample attribute flags: HEADER and JUSTIFICATION. -/
def sampleAttributes : BlockAttributes :=
  { header := true, body := false, receipt := false, message_queue := false
  , justification := true }

/-- A sample wire request: ascending from number 0, `max_blocks = 0`
(unlimited). -/
def sampleRequestC1 : ProtoBlockRequest :=
  { fields := sampleAttributes.to_be_u32, from_block := some (.Number [0])
  , to_block := [], direction := 0, max_blocks := 0 }

/-- The response the responder produces for `sampleRequestC1` on
`sampleChain` with `sampleConfig`: exactly 2 blocks (the configured cap). -/
def sampleResponseC1 : ProtoBlockResponse :=
  { blocks :=
      [ { hash := [100], header := [0, 99, 100], body := [], receipt := []
        , message_queue := [], justification := [], is_empty_justification := false }
      , { hash := [101], header := [1, 100, 101], body := [], receipt := []
        , message_queue := [], justification := [], is_empty_justification := false } ] }

/-! ## Theorems -/

/-- Any successful walk produces at most `max (acc.length) max_blocks`
records: the loop appends only while strictly below the cap. -/
theorem walkLoop_ok_length (chain : Client) (gh gb gj : Bool)
    (dir : Direction) (mb : Nat) :
    ∀ (fuel : Nat) (block_id : BlockId) (acc l : List ProtoBlockData),
      walkLoop chain gh gb gj dir mb fuel block_id acc = .ok l →
      l.length ≤ max acc.length mb := by
  intro fuel
  induction fuel with
  | zero =>
    intro bid acc l h
    simp only [walkLoop] at h
    injection h with h1
    subst h1
    exact le_max_left _ _
  | succ fuel ih =>
    intro bid acc l h
    unfold walkLoop at h
    split at h
    · injection h with h1
      subst h1
      exact le_max_left _ _
    · split at h
      · injection h with h1
        subst h1
        exact le_max_left _ _
      · split at h
        · exact Except.noConfusion h
        · split at h
          · exact Except.noConfusion h
          · split at h
            · have h2 := ih _ _ _ h
              simp only [List.length_append, List.length_cons, List.length_nil] at h2
              omega
            · split at h
              · injection h with h1
                subst h1
                simp only [List.length_append, List.length_cons, List.length_nil]
                omega
              · have h2 := ih _ _ _ h
                simp only [List.length_append, List.length_cons, List.length_nil] at h2
                omega

/-- C1: for every request the inbound responder accepts, the produced
response holds at most `config.max_block_data_response` block records, and at
most `request.max_blocks` records whenever `max_blocks` is non-zero (so the
count is bounded by `min(request.max_blocks, config.max_block_data_response)`
with `max_blocks == 0` meaning unlimited). -/
theorem on_block_request_cap (cfg : Config) (chain : Client)
    (request : ProtoBlockRequest) (response : ProtoBlockResponse)
    (h : on_block_request cfg chain request = .ok response) :
    response.blocks.length ≤ cfg.max_block_data_response ∧
    (request.max_blocks ≠ 0 → response.blocks.length ≤ request.max_blocks) := by
  unfold on_block_request at h
  split at h
  · exact Except.noConfusion h
  · split at h
    · exact Except.noConfusion h
    · split at h
      · exact Except.noConfusion h
      · split at h
        · exact Except.noConfusion h
        · rename_i blocks heq
          injection h with h1
          have h2 := walkLoop_ok_length _ _ _ _ _ _ _ _ _ _ heq
          rw [← h1]
          simp only [List.length_nil, Nat.max_eq_right (Nat.zero_le _)] at h2
          unfold effectiveMaxBlocks at h2
          by_cases h0 : request.max_blocks = 0
          · rw [if_pos h0] at h2
            exact ⟨h2, fun hne => absurd h0 hne⟩
          · rw [if_neg h0] at h2
            exact ⟨h2.trans (min_le_right _ _), fun _ => h2.trans (min_le_left _ _)⟩

/-- Witness for C1: on the sample chain with cap 2 and an unlimited request
the responder returns exactly 2 blocks, within both bounds. -/
theorem on_block_request_cap_witness :
    sampleResponseC1.blocks.length ≤ sampleConfig.max_block_data_response ∧
    (sampleRequestC1.max_blocks ≠ 0 →
      sampleResponseC1.blocks.length ≤ sampleRequestC1.max_blocks) :=
  on_block_request_cap sampleConfig sampleChain sampleRequestC1 sampleResponseC1 rfl

/-- The fuel parameter of `walkLoop` is irrelevant once it exceeds
`max_blocks - acc.length`: the loop genuinely terminates after at most that
many appends, so the embedding with fuel `max_blocks + 1` computes the value
of the unbounded source loop. -/
theorem walkLoop_fuel_independent (chain : Client) (gh gb gj : Bool)
    (dir : Direction) (mb : Nat) :
    ∀ (fuel fuel' : Nat) (bid : BlockId) (acc : List ProtoBlockData),
      mb - acc.length < fuel → mb - acc.length < fuel' →
      walkLoop chain gh gb gj dir mb fuel bid acc =
        walkLoop chain gh gb gj dir mb fuel' bid acc := by
  intro fuel
  induction fuel with
  | zero =>
    intro fuel' bid acc h
    omega
  | succ fuel ih =>
    intro fuel' bid acc h h'
    cases fuel' with
    | zero => omega
    | succ f' =>
      unfold walkLoop
      cases hu : exceptUnwrapOr (chain.header bid) none with
      | none => simp only [hu]
      | some header =>
        simp only [hu]
        by_cases hcap : mb ≤ acc.length
        · simp only [if_pos hcap]
        · simp only [if_neg hcap]
          cases hj : (if gj then chain.justification (BlockId.Hash header.hashVal)
              else Except.ok none) with
          | error e => simp only [hj]
          | ok justification =>
            simp only [hj]
            cases hb : (if gb then chain.block_body (BlockId.Hash header.hashVal)
                else Except.ok none) with
            | error e => simp only [hb]
            | ok body? =>
              simp only [hb]
              cases dir with
              | Ascending =>
                exact ih f' _ _
                  (by simp only [List.length_append, List.length_cons,
                    List.length_nil]; omega)
                  (by simp only [List.length_append, List.length_cons,
                    List.length_nil]; omega)
              | Descending =>
                by_cases hz : header.number = 0
                · simp only [if_pos hz]
                · simp only [if_neg hz]
                  exact ih f' _ _
                    (by simp only [List.length_append, List.length_cons,
                      List.length_nil]; omega)
                    (by simp only [List.length_append, List.length_cons,
                      List.length_nil]; omega)

/-- C4: one step of the responder's chain walk.  When the chain client yields
no header for the current id the walk stops with the records gathered so far;
when the effective cap is reached it stops; otherwise it appends one record
and continues at `Number(number + 1)` for Ascending, stops at genesis
(`number == 0`) for Descending, and continues at `Hash(parent_hash)` for
Descending otherwise. -/
theorem walkLoop_advance_and_stop (chain : Client) (gh gb gj : Bool)
    (dir : Direction) (mb fuel : Nat) (block_id : BlockId)
    (acc : List ProtoBlockData) :
    (exceptUnwrapOr (chain.header block_id) none = none →
      walkLoop chain gh gb gj dir mb (fuel + 1) block_id acc = .ok acc) ∧
    (∀ header, exceptUnwrapOr (chain.header block_id) none = some header →
      mb ≤ acc.length →
      walkLoop chain gh gb gj dir mb (fuel + 1) block_id acc = .ok acc) ∧
    (∀ header justification body?,
      exceptUnwrapOr (chain.header block_id) none = some header →
      acc.length < mb →
      (if gj then chain.justification (BlockId.Hash header.hashVal) else .ok none) =
        .ok justification →
      (if gb then chain.block_body (BlockId.Hash header.hashVal) else .ok none) =
        .ok body? →
      (dir = .Ascending →
        walkLoop chain gh gb gj dir mb (fuel + 1) block_id acc =
          walkLoop chain gh gb gj dir mb fuel (BlockId.Number (header.number + 1))
            (acc ++ [blockDataOf gh gb header justification body?])) ∧
      (dir = .Descending → header.number = 0 →
        walkLoop chain gh gb gj dir mb (fuel + 1) block_id acc =
          .ok (acc ++ [blockDataOf gh gb header justification body?])) ∧
      (dir = .Descending → header.number ≠ 0 →
        walkLoop chain gh gb gj dir mb (fuel + 1) block_id acc =
          walkLoop chain gh gb gj dir mb fuel (BlockId.Hash header.parent_hash)
            (acc ++ [blockDataOf gh gb header justification body?]))) ∧
    (∀ fuel2 : Nat, mb - acc.length < fuel + 1 → mb - acc.length < fuel2 →
      walkLoop chain gh gb gj dir mb (fuel + 1) block_id acc =
        walkLoop chain gh gb gj dir mb fuel2 block_id acc) := by
  refine ⟨?_, ?_, ?_, fun fuel2 hA hB =>
    walkLoop_fuel_independent chain gh gb gj dir mb (fuel + 1) fuel2 block_id acc hA hB⟩
  · intro hu
    unfold walkLoop
    simp only [hu]
  · intro header hu hcap
    unfold walkLoop
    simp only [hu, if_pos hcap]
  · intro header justification body? hu hlt hj hb
    have hcap : ¬ mb ≤ acc.length := by omega
    refine ⟨?_, ?_, ?_⟩
    · intro hdir
      subst hdir
      conv_lhs => unfold walkLoop
      simp only [hu, if_neg hcap, hj, hb]
    · intro hdir hz
      subst hdir
      conv_lhs => unfold walkLoop
      simp only [hu, if_neg hcap, hj, hb, hz]
      simp
    · intro hdir hz
      subst hdir
      conv_lhs => unfold walkLoop
      simp only [hu, if_neg hcap, hj, hb, if_neg hz]

/-- Witness for C4: on the sample chain, the walk from block number 0
(ascending, cap 2) takes one step appending block 0 and continues at block
number 1. -/
theorem walkLoop_advance_and_stop_witness :
    exceptUnwrapOr (sampleChain.header (BlockId.Number 0)) none =
      some { number := 0, parent_hash := 99, hashVal := 100 } ∧
    ([] : List ProtoBlockData).length < 2 ∧
    walkLoop sampleChain true false false .Ascending 2 3 (BlockId.Number 0) [] =
      walkLoop sampleChain true false false .Ascending 2 2 (BlockId.Number 1)
        [blockDataOf true false { number := 0, parent_hash := 99, hashVal := 100 } none none] := by
  refine ⟨rfl, by decide, ?_⟩
  have h := ((walkLoop_advance_and_stop sampleChain true false false .Ascending 2 2
      (BlockId.Number 0) []).2.2.1
      { number := 0, parent_hash := 99, hashVal := 100 } none none
      rfl (by decide) rfl rfl).1 rfl
  simpa using h

/-- A chain client whose header lookup fails. -/
def errHeaderChain : Client :=
  { header := fun _ => .error 9
  , block_body := fun _ => .ok none
  , justification := fun _ => .ok none }

/-- A chain client whose justification lookup fails. -/
def errJustChain : Client :=
  { header := fun _ => .ok (some { number := 1, parent_hash := 0, hashVal := 50 })
  , block_body := fun _ => .ok none
  , justification := fun _ => .error 7 }

/-- A chain client whose block body lookup fails. -/
def errBodyChain : Client :=
  { header := fun _ => .ok (some { number := 1, parent_hash := 0, hashVal := 50 })
  , block_body := fun _ => .error 8
  , justification := fun _ => .ok none }

/-- A sample wire request with `max_blocks = 1` asking HEADER and
JUSTIFICATION, ascending from number 0. -/
def errRequest : ProtoBlockRequest :=
  { fields := sampleAttributes.to_be_u32, from_block := some (.Number [0])
  , to_block := [], direction := 0, max_blocks := 1 }

/-- C8: a chain client error from the header lookup ends the walk exactly
like a missing header (the gathered records are returned), while an error
from the justification or body lookup aborts the walk, and hence the whole
responder, with an error. -/
theorem walkLoop_error_handling (chain : Client) (gh gb gj : Bool)
    (dir : Direction) (mb fuel : Nat) (block_id : BlockId)
    (acc : List ProtoBlockData) :
    (∀ e, chain.header block_id = .error e →
      walkLoop chain gh gb gj dir mb (fuel + 1) block_id acc = .ok acc) ∧
    (∀ header e,
      exceptUnwrapOr (chain.header block_id) none = some header →
      acc.length < mb → gj = true →
      chain.justification (BlockId.Hash header.hashVal) = .error e →
      walkLoop chain gh gb gj dir mb (fuel + 1) block_id acc =
        .error (.chain e)) ∧
    (∀ header justification e,
      exceptUnwrapOr (chain.header block_id) none = some header →
      acc.length < mb →
      (if gj then chain.justification (BlockId.Hash header.hashVal) else .ok none) =
        .ok justification →
      gb = true →
      chain.block_body (BlockId.Hash header.hashVal) = .error e →
      walkLoop chain gh gb gj dir mb (fuel + 1) block_id acc =
        .error (.chain e)) ∧
    (∀ (cfg : Config) (request : ProtoBlockRequest) (fid : BlockId)
      (direction : Direction) (attrs : BlockAttributes) (er : RespError),
      resolveFromBlock request.from_block = .ok fid →
      resolveDirection request.direction = .ok direction →
      BlockAttributes.from_be_u32 request.fields = .ok attrs →
      walkLoop chain attrs.header attrs.body attrs.justification direction
        (effectiveMaxBlocks cfg request) (effectiveMaxBlocks cfg request + 1)
        fid [] = .error er →
      on_block_request cfg chain request = .error er) := by
  refine ⟨?_, ?_, ?_, ?_⟩
  · intro e he
    have hu : exceptUnwrapOr (chain.header block_id) none = none := by
      rw [he]
      rfl
    unfold walkLoop
    simp only [hu]
  · intro header e hu hlt hgj hje
    subst hgj
    have hcap : ¬ mb ≤ acc.length := by omega
    unfold walkLoop
    simp [hu, hcap, hje]
  · intro header justification e hu hlt hj hgb hbe
    subst hgb
    have hcap : ¬ mb ≤ acc.length := by omega
    unfold walkLoop
    simp [hu, hcap, hj, hbe]
  · intro cfg request fid direction attrs er h1 h2 h3 h4
    unfold on_block_request
    simp only [h1, h2, h3, h4]

/-- Witness for C8: a failing header lookup yields an empty successful
response, failing justification and body lookups abort the walk, and the
justification failure propagates out of `on_block_request`. -/
theorem walkLoop_error_handling_witness :
    errHeaderChain.header (BlockId.Number 0) = .error 9 ∧
    walkLoop errHeaderChain true false false .Ascending 2 1 (BlockId.Number 0) [] = .ok [] ∧
    walkLoop errJustChain true false true .Ascending 2 1 (BlockId.Number 0) [] =
      .error (.chain 7) ∧
    walkLoop errBodyChain true true false .Ascending 2 1 (BlockId.Number 0) [] =
      .error (.chain 8) ∧
    on_block_request sampleConfig errJustChain errRequest = .error (.chain 7) := by
  refine ⟨rfl, ?_, ?_, ?_, ?_⟩
  · exact (walkLoop_error_handling errHeaderChain true false false .Ascending 2 0
      (BlockId.Number 0) []).1 9 rfl
  · exact (walkLoop_error_handling errJustChain true false true .Ascending 2 0
      (BlockId.Number 0) []).2.1 { number := 1, parent_hash := 0, hashVal := 50 } 7
      rfl (by decide) rfl rfl
  · exact (walkLoop_error_handling errBodyChain true true false .Ascending 2 0
      (BlockId.Number 0) []).2.2.1 { number := 1, parent_hash := 0, hashVal := 50 }
      none 8 rfl (by decide) rfl rfl rfl
  · exact (walkLoop_error_handling errJustChain true false true .Ascending 2 0
      (BlockId.Number 0) []).2.2.2 sampleConfig errRequest (BlockId.Number 0)
      .Ascending sampleAttributes (.chain 7) rfl rfl rfl rfl

/-- Field characterization of a successfully decoded block record: the pure
fields of the result are exactly the if-expressions of the source. -/
theorem decode_block_data_ok_fields (orig : BlockRequest) (bd : ProtoBlockData)
    (r : BlockData) (h : decode_block_data orig bd = .ok r) :
    r.receipt = (if !bd.message_queue.isEmpty then some bd.receipt else none) ∧
    r.message_queue =
      (if !bd.message_queue.isEmpty then some bd.message_queue else none) ∧
    r.justification =
      (if !bd.justification.isEmpty then some bd.justification
       else if bd.is_empty_justification then some [] else none) := by
  unfold decode_block_data at h
  split at h
  · exact Except.noConfusion h
  · split at h
    · exact Except.noConfusion h
    · split at h
      · exact Except.noConfusion h
      · injection h with h1
        subst h1
        exact ⟨rfl, rfl, rfl⟩

/-- C6: the responder sets `is_empty_justification` iff the fetched
justification is present and empty; the decoder recovers `Some(bytes)` iff
the wire bytes are non-empty, `Some(empty)` iff they are empty with the flag
set, and `None` otherwise; consequently a decoded responder record carries
exactly the fetched justification, so present-and-empty round-trips. -/
theorem justification_roundtrip :
    (∀ (gh gb : Bool) (header : Header) (j : Option Bytes)
        (body? : Option (List Extrinsic)),
      (blockDataOf gh gb header j body?).is_empty_justification = true ↔
        j = some []) ∧
    (∀ (orig : BlockRequest) (bd : ProtoBlockData) (r : BlockData),
      decode_block_data orig bd = .ok r →
      r.justification =
        (if bd.justification ≠ [] then some bd.justification
         else if bd.is_empty_justification then some [] else none)) ∧
    (∀ (gh gb : Bool) (header : Header) (j : Option Bytes)
        (body? : Option (List Extrinsic)) (orig : BlockRequest) (r : BlockData),
      decode_block_data orig (blockDataOf gh gb header j body?) = .ok r →
      r.justification = j) := by
  have hdec : ∀ (orig : BlockRequest) (bd : ProtoBlockData) (r : BlockData),
      decode_block_data orig bd = .ok r →
      r.justification =
        (if bd.justification ≠ [] then some bd.justification
         else if bd.is_empty_justification then some [] else none) := by
    intro orig bd r h
    have h2 := (decode_block_data_ok_fields orig bd r h).2.2
    rw [h2]
    cases bd.justification <;> simp
  refine ⟨?_, hdec, ?_⟩
  · intro gh gb header j body?
    cases j with
    | none => simp [blockDataOf]
    | some l => cases l <;> simp [blockDataOf]
  · intro gh gb header j body? orig r h
    have h2 := hdec orig _ r h
    rw [h2]
    cases j with
    | none => simp [blockDataOf]
    | some l => cases l <;> simp [blockDataOf]

/-- The decoded form of the sample chain's block number 2 (hash 102, which
carries a present-and-empty justification). -/
def sampleDecoded : BlockData :=
  { hash := 102, header := some { number := 2, parent_hash := 101, hashVal := 102 }
  , body := none, receipt := none, message_queue := none, justification := some [] }

/-- The internal form of the sample request (HEADER and JUSTIFICATION). -/
def sampleOriginalRequest : BlockRequest :=
  { id := 0, fields := sampleAttributes, from_block := .Number 0
  , to_block := none, direction := .Ascending, max := some 2 }

/-- Witness for C6: the record the responder builds for a present-and-empty
justification has the flag set and decodes back to `some []`. -/
theorem justification_roundtrip_witness :
    ((blockDataOf true false { number := 2, parent_hash := 101, hashVal := 102 }
        (some []) none).is_empty_justification = true ↔
      (some [] : Option Bytes) = some []) ∧
    sampleDecoded.justification = some [] :=
  ⟨justification_roundtrip.1 true false
      { number := 2, parent_hash := 101, hashVal := 102 } (some []) none,
    justification_roundtrip.2.2 true false
      { number := 2, parent_hash := 101, hashVal := 102 } (some []) none
      sampleOriginalRequest sampleDecoded rfl⟩

/-- C7: in every decoded block record the internal `receipt` field is
`Some(wire receipt bytes)` iff the wire `message_queue` bytes are non-empty,
and `None` otherwise; the receipt bytes' own emptiness plays no role. -/
theorem receipt_follows_message_queue (orig : BlockRequest)
    (bd : ProtoBlockData) (r : BlockData)
    (h : decode_block_data orig bd = .ok r) :
    r.receipt = (if bd.message_queue ≠ [] then some bd.receipt else none) := by
  have h2 := (decode_block_data_ok_fields orig bd r h).1
  rw [h2]
  cases bd.message_queue <;> simp

/-- A wire record with empty receipt bytes but a non-empty message queue. -/
def sampleReceiptRecord : ProtoBlockData :=
  { hash := [5], header := [], body := [], receipt := [], message_queue := [3]
  , justification := [], is_empty_justification := false }

/-- Witness for C7: with `message_queue = [3]` and empty receipt bytes the
decoder still produces `some []` for the receipt. -/
theorem receipt_follows_message_queue_witness :
    ({ hash := 5, header := none, body := none, receipt := some []
     , message_queue := some [3], justification := none } : BlockData).receipt =
      (if sampleReceiptRecord.message_queue ≠ [] then some sampleReceiptRecord.receipt
       else none) :=
  receipt_follows_message_queue sampleOriginalRequest sampleReceiptRecord _ rfl

/-- A sample behaviour state: one peer (id 1) with one idle connection
(id 10). -/
def sampleState : BlockRequests :=
  { config := sampleConfig
  , peers := [(1, [{ id := 10, ongoing_request := none }])]
  , pending_events := [] }

/-- A sample ongoing request, emitted at time 50 with deadline 90. -/
def sampleOngoing : OngoingRequest :=
  { emitted := 50, request := sampleOriginalRequest, deadline := 90 }

/-- A sample behaviour state whose single connection carries
`sampleOngoing`. -/
def sampleStateBusy : BlockRequests :=
  { config := sampleConfig
  , peers := [(1, [{ id := 10, ongoing_request := some sampleOngoing }])]
  , pending_events := [] }

/-- A second internal request, distinct from `sampleOriginalRequest`. -/
def sampleRequest2 : BlockRequest :=
  { id := 1, fields := sampleAttributes, from_block := .Number 3
  , to_block := none, direction := .Ascending, max := some 2 }

/-- C9: when the protobuf encoder fails on the outgoing request (after a
target connection has been selected), `send_request` returns `EncodeError`
and the behaviour state — peer table, every `ongoing_request` slot and the
pending action queue — is returned unchanged. -/
theorem send_request_encode_error (enc : ProtoBlockRequest → Except Nat Bytes)
    (now : Nat) (s : BlockRequests) (target : PeerId) (req : BlockRequest)
    (e : Nat) (conns : List Connection) (i : Nat) (connection : Connection)
    (h1 : findPeer s.peers target = some conns)
    (h2 : selectConnection conns = some (i, connection))
    (h3 : enc (build_protobuf_block_request req.fields req.from_block
      req.to_block req.direction req.max) = .error e) :
    send_request enc now s target req = (s, .EncodeError e) := by
  unfold send_request
  simp only [h1, h2, h3]

/-- Witness for C9: a failing encoder leaves the sample state untouched and
reports the error code. -/
theorem send_request_encode_error_witness :
    send_request (fun _ => .error 5) 100 sampleState 1 sampleOriginalRequest =
      (sampleState, .EncodeError 5) :=
  send_request_encode_error (fun _ => .error 5) 100 sampleState 1
    sampleOriginalRequest 5 [{ id := 10, ongoing_request := none }] 0
    { id := 10, ongoing_request := none } rfl rfl rfl

/-- C3: a `send_request` whose chosen connection already holds an ongoing
request returns `Replaced` with the previous request and its elapsed
duration, installs the new request in that slot, and enqueues only the
handler notification — no `RequestCancelled` event. -/
theorem send_request_replaced (enc : ProtoBlockRequest → Except Nat Bytes)
    (now : Nat) (s : BlockRequests) (target : PeerId) (req : BlockRequest)
    (conns : List Connection) (i : Nat) (connection : Connection)
    (prev : OngoingRequest) (buf : Bytes)
    (h1 : findPeer s.peers target = some conns)
    (h2 : selectConnection conns = some (i, connection))
    (h3 : connection.ongoing_request = some prev)
    (h4 : enc (build_protobuf_block_request req.fields req.from_block
      req.to_block req.direction req.max) = .ok buf) :
    send_request enc now s target req =
      ({ s with
         peers := setPeer s.peers target (conns.set i
           { id := connection.id
           , ongoing_request := some
               { emitted := now, request := req
               , deadline := now + s.config.request_timeout } })
       , pending_events := s.pending_events ++
           [Action.NotifyHandler target connection.id buf req
             s.config.max_response_len s.config.protocol] },
       .Replaced prev.request (now - prev.emitted)) := by
  unfold send_request
  simp only [h1, h2, h3, h4]

/-- Witness for C3: replacing the sample ongoing request at time 100 returns
`Replaced` with the old request and 50 elapsed, installs the new request and
enqueues one handler notification. -/
theorem send_request_replaced_witness :
    send_request (fun _ => .ok [9]) 100 sampleStateBusy 1 sampleRequest2 =
      ({ config := sampleConfig
        , peers :=
            [(1, [{ id := 10
                  , ongoing_request :=
                      some { emitted := 100, request := sampleRequest2, deadline := 140 } }])]
        , pending_events := [Action.NotifyHandler 1 10 [9] sampleRequest2 4096 [1, 2]] },
       .Replaced sampleOriginalRequest 50) :=
  send_request_replaced (fun _ => .ok [9]) 100 sampleStateBusy 1 sampleRequest2
    [{ id := 10, ongoing_request := some sampleOngoing }] 0
    { id := 10, ongoing_request := some sampleOngoing } sampleOngoing [9]
    rfl rfl rfl rfl

/-- C2: on a `Response` node event, either no external event is produced
(the pending queue is unchanged), or an `Event::Response` is appended — and
in the latter case the peer is present, the connection with that id exists,
it holds an ongoing request whose recorded value equals the carried
`original_request`, and all block records decoded. -/
theorem inject_response_matching (now : Nat) (s : BlockRequests)
    (peer : PeerId) (connection_id : ConnectionId)
    (original_request : BlockRequest) (response : ProtoBlockResponse) :
    (inject_event_response now s peer connection_id original_request
        response).pending_events = s.pending_events ∨
    (∃ connections i connection ongoing blocks,
      findPeer s.peers peer = some connections ∧
      connections.findIdx? (fun c => c.id == connection_id) = some i ∧
      connections[i]? = some connection ∧
      connection.ongoing_request = some ongoing ∧
      ongoing.request = original_request ∧
      decode_blocks original_request response.blocks = .ok blocks ∧
      (inject_event_response now s peer connection_id original_request
          response).pending_events =
        s.pending_events ++
          [Action.GenerateEvent (Event.Response peer original_request
            { id := original_request.id, blocks := blocks }
            (now - ongoing.emitted))]) := by
  cases h1 : findPeer s.peers peer with
  | none => left; simp only [inject_event_response, h1]
  | some connections =>
    cases h2 : connections.findIdx? (fun c => c.id == connection_id) with
    | none => left; simp only [inject_event_response, h1, h2]
    | some i =>
      cases h3 : connections[i]? with
      | none => left; simp only [inject_event_response, h1, h2, h3]
      | some connection =>
        cases h4 : connection.ongoing_request with
        | none => left; simp only [inject_event_response, h1, h2, h3, h4]
        | some ongoing =>
          by_cases h5 : ongoing.request = original_request
          · cases h6 : decode_blocks original_request response.blocks with
            | error e =>
              left
              simp only [inject_event_response, h1, h2, h3, h4, if_pos h5, h6]
            | ok blocks =>
              right
              refine ⟨connections, i, connection, ongoing, blocks,
                rfl, h2, h3, h4, h5, rfl, ?_⟩
              simp only [inject_event_response, h1, h2, h3, h4, if_pos h5, h6]
          · left
            simp only [inject_event_response, h1, h2, h3, h4, if_neg h5]

/-- Invariant I2 of the spec: every entry of the peer table has a non-empty
connection list. -/
def peersInvariant (peers : List (PeerId × List Connection)) : Prop :=
  ∀ e ∈ peers, e.2 ≠ []

instance instDecidablePeersInvariant (peers : List (PeerId × List Connection)) :
    Decidable (peersInvariant peers) :=
  List.decidableBAll _ peers

/-- Updating one entry with a non-empty list preserves the invariant. -/
theorem setPeer_invariant {peers : List (PeerId × List Connection)}
    {p : PeerId} {conns : List Connection} (h : peersInvariant peers)
    (hc : conns ≠ []) : peersInvariant (setPeer peers p conns) := by
  intro e he
  unfold setPeer at he
  rcases List.mem_map.mp he with ⟨a, ha, hae⟩
  by_cases hp : a.1 == p
  · rw [if_pos hp] at hae
    rw [← hae]
    exact hc
  · rw [if_neg hp] at hae
    rw [← hae]
    exact h a ha

/-- Removing an entry preserves the invariant. -/
theorem removePeer_invariant {peers : List (PeerId × List Connection)}
    {p : PeerId} (h : peersInvariant peers) :
    peersInvariant (removePeer peers p) := by
  intro e he
  exact h e (List.mem_of_mem_filter he)

/-- A connection is only selected from a non-empty list. -/
theorem selectConnection_ne_nil {conns : List Connection}
    {x : Nat × Connection} (h : selectConnection conns = some x) :
    conns ≠ [] := by
  intro hc
  subst hc
  simp [selectConnection] at h

/-- Setting an element of a non-empty list keeps it non-empty. -/
theorem set_ne_nil {α : Type} {l : List α} (hl : l ≠ []) (i : Nat) (x : α) :
    l.set i x ≠ [] := by
  cases l with
  | nil => exact absurd rfl hl
  | cons a rest => cases i <;> simp

/-- Clearing the first expired slot keeps the connection list non-empty. -/
theorem clearFirstExpired_ne_nil (now : Nat) (c : Connection)
    (rest : List Connection) : clearFirstExpired now (c :: rest) ≠ [] := by
  obtain ⟨cid, org⟩ := c
  cases org with
  | none => simp [clearFirstExpired]
  | some rq =>
    simp only [clearFirstExpired]
    split <;> simp

/-- The timeout scan on a peer whose connections hold no expired request
keeps that entry and recurses on the rest. -/
theorem poll_timeouts_cons_none {now : Nat} {p : PeerId}
    {conns : List Connection} {rest : List (PeerId × List Connection)}
    (hf : firstExpired now conns = none) :
    poll_timeouts now ((p, conns) :: rest) =
      ((poll_timeouts now rest).1, (p, conns) :: (poll_timeouts now rest).2) := by
  simp only [poll_timeouts, hf]

/-- The timeout scan preserves the invariant. -/
theorem poll_timeouts_invariant (now : Nat) :
    ∀ peers, peersInvariant peers → peersInvariant (poll_timeouts now peers).2 := by
  intro peers
  induction peers with
  | nil =>
    intro _ e he
    simp [poll_timeouts] at he
  | cons hd rest ih =>
    intro h
    obtain ⟨p, conns⟩ := hd
    have hrest : peersInvariant rest := fun e he => h e (List.mem_cons_of_mem _ he)
    cases hf : firstExpired now conns with
    | some rq =>
      intro e he
      simp only [poll_timeouts, hf] at he
      cases List.mem_cons.mp he with
      | inl h1 =>
        rw [h1]
        have hcne : conns ≠ [] := by
          intro hc
          rw [hc] at hf
          simp [firstExpired] at hf
        cases conns with
        | nil => exact absurd rfl hcne
        | cons c crest => exact clearFirstExpired_ne_nil now c crest
      | inr h2 => exact hrest e h2
    | none =>
      intro e he
      rw [poll_timeouts_cons_none hf] at he
      cases List.mem_cons.mp he with
      | inl h1 =>
        rw [h1]
        exact h (p, conns) (List.mem_cons_self (p, conns) rest)
      | inr h2 => exact ih hrest e h2

/-- A found expired request is held by some connection of the list. -/
theorem firstExpired_some_mem (now : Nat) :
    ∀ (l : List Connection) (rq : OngoingRequest),
      firstExpired now l = some rq →
      ∃ (j : Nat) (c : Connection),
        l[j]? = some c ∧ c.ongoing_request = some rq ∧ rq.deadline ≤ now := by
  intro l
  induction l with
  | nil =>
    intro rq h
    simp [firstExpired] at h
  | cons c rest ih =>
    intro rq h
    cases horg : c.ongoing_request with
    | some rq2 =>
      unfold firstExpired at h
      simp only [horg] at h
      by_cases hd : rq2.deadline ≤ now
      · rw [if_pos hd] at h
        injection h with h1
        subst h1
        exact ⟨0, c, by simp, horg, hd⟩
      · rw [if_neg hd] at h
        obtain ⟨j, c2, hj, hc2, hdd⟩ := ih rq h
        refine ⟨j + 1, c2, ?_, hc2, hdd⟩
        rw [List.getElem?_cons_succ]
        exact hj
    | none =>
      unfold firstExpired at h
      simp only [horg] at h
      obtain ⟨j, c2, hj, hc2, hdd⟩ := ih rq h
      refine ⟨j + 1, c2, ?_, hc2, hdd⟩
      rw [List.getElem?_cons_succ]
      exact hj

/-- C5: closing a connection removes it from the peer's list; exactly one
`RequestCancelled` with the original request and its elapsed duration is
enqueued iff the connection held an ongoing request; the peer entry is
removed exactly when its list becomes empty; and the non-empty-entry
invariant I2 is preserved by every state-modifying operation of the
behaviour. -/
theorem inject_connection_closed_spec :
    (∀ (now : Nat) (s : BlockRequests) (peer_id : PeerId) (id : ConnectionId)
        (entry : List Connection) (pos : Nat) (conn : Connection),
      findPeer s.peers peer_id = some entry →
      entry.findIdx? (fun c => c.id == id) = some pos →
      entry[pos]? = some conn →
      (inject_connection_closed now s peer_id id).pending_events =
        s.pending_events ++
          (match conn.ongoing_request with
           | some ongoing =>
             [Action.GenerateEvent (Event.RequestCancelled peer_id
               ongoing.request (now - ongoing.emitted))]
           | none => []) ∧
      (inject_connection_closed now s peer_id id).peers =
        (if (entry.eraseIdx pos).isEmpty then removePeer s.peers peer_id
         else setPeer s.peers peer_id (entry.eraseIdx pos))) ∧
    (∀ (now : Nat) (s : BlockRequests) (peer_id : PeerId) (id : ConnectionId),
      peersInvariant s.peers →
      peersInvariant (inject_connection_closed now s peer_id id).peers) ∧
    (∀ (s : BlockRequests) (peer_id : PeerId) (id : ConnectionId),
      peersInvariant s.peers →
      peersInvariant (inject_connection_established s peer_id id).peers) ∧
    (∀ (enc : ProtoBlockRequest → Except Nat Bytes) (now : Nat)
        (s : BlockRequests) (target : PeerId) (req : BlockRequest),
      peersInvariant s.peers →
      peersInvariant (send_request enc now s target req).1.peers) ∧
    (∀ (now : Nat) (s : BlockRequests) (peer : PeerId)
        (connection_id : ConnectionId) (original_request : BlockRequest)
        (response : ProtoBlockResponse),
      peersInvariant s.peers →
      peersInvariant (inject_event_response now s peer connection_id
        original_request response).peers) ∧
    (∀ (now : Nat) (peers : List (PeerId × List Connection)),
      peersInvariant peers → peersInvariant (poll_timeouts now peers).2) := by
  refine ⟨?_, ?_, ?_, ?_, ?_, poll_timeouts_invariant⟩
  · intro now s peer_id id entry pos conn h1 h2 h3
    cases ho : conn.ongoing_request with
    | some ongoing =>
      by_cases hemp : (entry.eraseIdx pos).isEmpty = true
      · constructor <;>
          simp only [inject_connection_closed, h1, h2, h3, ho, if_pos hemp]
      · constructor <;>
          simp only [inject_connection_closed, h1, h2, h3, ho, if_neg hemp]
    | none =>
      by_cases hemp : (entry.eraseIdx pos).isEmpty = true
      · constructor <;>
          simp only [inject_connection_closed, h1, h2, h3, ho, if_pos hemp,
            List.append_nil]
      · constructor <;>
          simp only [inject_connection_closed, h1, h2, h3, ho, if_neg hemp,
            List.append_nil]
  · intro now s peer_id id hinv
    cases h1 : findPeer s.peers peer_id with
    | none => simpa only [inject_connection_closed, h1] using hinv
    | some entry =>
      cases h2 : entry.findIdx? (fun c => c.id == id) with
      | none => simpa only [inject_connection_closed, h1, h2] using hinv
      | some pos =>
        cases h3 : entry[pos]? with
        | none => simpa only [inject_connection_closed, h1, h2, h3] using hinv
        | some conn =>
          by_cases hemp : (entry.eraseIdx pos).isEmpty = true
          · cases ho : conn.ongoing_request with
            | some ongoing =>
              simpa only [inject_connection_closed, h1, h2, h3, ho, if_pos hemp]
                using removePeer_invariant hinv
            | none =>
              simpa only [inject_connection_closed, h1, h2, h3, ho, if_pos hemp]
                using removePeer_invariant hinv
          · have hne : entry.eraseIdx pos ≠ [] := by
              intro hc
              exact hemp (by rw [hc]; rfl)
            cases ho : conn.ongoing_request with
            | some ongoing =>
              simpa only [inject_connection_closed, h1, h2, h3, ho, if_neg hemp]
                using setPeer_invariant hinv hne
            | none =>
              simpa only [inject_connection_closed, h1, h2, h3, ho, if_neg hemp]
                using setPeer_invariant hinv hne
  · intro s peer_id id hinv
    cases h1 : findPeer s.peers peer_id with
    | some conns =>
      simp only [inject_connection_established, h1]
      exact setPeer_invariant hinv (by simp)
    | none =>
      simp only [inject_connection_established, h1]
      intro e he
      cases List.mem_append.mp he with
      | inl h2 => exact hinv e h2
      | inr h2 =>
        rw [List.mem_singleton.mp h2]
        simp
  · intro enc now s target req hinv
    cases h1 : findPeer s.peers target with
    | none => simpa only [send_request, h1] using hinv
    | some conns =>
      cases h2 : selectConnection conns with
      | none => simpa only [send_request, h1, h2] using hinv
      | some ic =>
        obtain ⟨i, connection⟩ := ic
        cases h3 : enc (build_protobuf_block_request req.fields req.from_block
            req.to_block req.direction req.max) with
        | error e => simpa only [send_request, h1, h2, h3] using hinv
        | ok buf =>
          have hinv2 := setPeer_invariant (p := target) hinv
            (set_ne_nil (selectConnection_ne_nil h2) i
              { id := connection.id
              , ongoing_request := some
                  { emitted := now, request := req
                  , deadline := now + s.config.request_timeout } })
          cases ho : connection.ongoing_request with
          | some prev =>
            simpa only [send_request, h1, h2, h3, ho] using hinv2
          | none =>
            simpa only [send_request, h1, h2, h3, ho] using hinv2
  · intro now s peer connection_id original_request response hinv
    cases h1 : findPeer s.peers peer with
    | none => simpa only [inject_event_response, h1] using hinv
    | some connections =>
      cases h2 : connections.findIdx? (fun c => c.id == connection_id) with
      | none => simpa only [inject_event_response, h1, h2] using hinv
      | some i =>
        cases h3 : connections[i]? with
        | none => simpa only [inject_event_response, h1, h2, h3] using hinv
        | some connection =>
          cases h4 : connection.ongoing_request with
          | none => simpa only [inject_event_response, h1, h2, h3, h4] using hinv
          | some ongoing =>
            have hne : connections ≠ [] := by
              intro hc
              rw [hc] at h3
              simp at h3
            have hinv2 := setPeer_invariant (p := peer) hinv
              (set_ne_nil hne i { id := connection.id, ongoing_request := none })
            by_cases h5 : ongoing.request = original_request
            · cases h6 : decode_blocks original_request response.blocks with
              | error e =>
                simpa only [inject_event_response, h1, h2, h3, h4, if_pos h5, h6]
                  using hinv2
              | ok blocks =>
                simpa only [inject_event_response, h1, h2, h3, h4, if_pos h5, h6]
                  using hinv2
            · simpa only [inject_event_response, h1, h2, h3, h4, if_neg h5]
                using hinv

/-- Witness for C5: closing the busy sample connection enqueues exactly one
`RequestCancelled` (elapsed 70), removes the now-empty peer entry, and the
resulting peer table satisfies the invariant. -/
theorem inject_connection_closed_spec_witness :
    (inject_connection_closed 120 sampleStateBusy 1 10).pending_events =
      sampleStateBusy.pending_events ++
        [Action.GenerateEvent (Event.RequestCancelled 1
          sampleOngoing.request (120 - sampleOngoing.emitted))] ∧
    (inject_connection_closed 120 sampleStateBusy 1 10).peers =
      removePeer sampleStateBusy.peers 1 ∧
    peersInvariant (inject_connection_closed 120 sampleStateBusy 1 10).peers := by
  have h := inject_connection_closed_spec
  have h1 := h.1 120 sampleStateBusy 1 10
    [{ id := 10, ongoing_request := some sampleOngoing }] 0
    { id := 10, ongoing_request := some sampleOngoing } rfl rfl rfl
  refine ⟨by simpa using h1.1, by simpa using h1.2, ?_⟩
  exact h.2.1 120 sampleStateBusy 1 10 (by decide)

/-- C10: when a response matches the recorded ongoing request but decoding a
block record fails, the slot has already been cleared: no event of any kind
is appended (no `Event::Response`), the connection with that id now holds no
ongoing request, and any request the `poll` timeout scan could still find in
this peer's list lives at a different connection index — so no
`RequestTimeout` can fire for the resolved slot. -/
theorem inject_response_decode_failure_silent (now : Nat) (s : BlockRequests)
    (peer : PeerId) (connection_id : ConnectionId)
    (original_request : BlockRequest) (response : ProtoBlockResponse)
    (connections : List Connection) (i : Nat) (connection : Connection)
    (ongoing : OngoingRequest) (err : Unit)
    (h1 : findPeer s.peers peer = some connections)
    (h2 : connections.findIdx? (fun c => c.id == connection_id) = some i)
    (h3 : connections[i]? = some connection)
    (h4 : connection.ongoing_request = some ongoing)
    (h5 : ongoing.request = original_request)
    (h6 : decode_blocks original_request response.blocks = .error err) :
    (inject_event_response now s peer connection_id original_request
        response).pending_events = s.pending_events ∧
    (inject_event_response now s peer connection_id original_request
        response).peers =
      setPeer s.peers peer (connections.set i
        { id := connection.id, ongoing_request := none }) ∧
    (connections.set i { id := connection.id, ongoing_request := none })[i]? =
      some { id := connection.id, ongoing_request := none } ∧
    (∀ (now2 : Nat) (rq2 : OngoingRequest),
      firstExpired now2 (connections.set i
        { id := connection.id, ongoing_request := none }) = some rq2 →
      ∃ (j : Nat) (c2 : Connection), j ≠ i ∧
        (connections.set i { id := connection.id, ongoing_request := none })[j]? =
          some c2 ∧
        c2.ongoing_request = some rq2) := by
  have hi : i < connections.length := by
    by_contra hn
    rw [List.getElem?_eq_none (by omega)] at h3
    exact Option.noConfusion h3
  have hset : (connections.set i
      { id := connection.id, ongoing_request := none })[i]? =
      some { id := connection.id, ongoing_request := none } :=
    List.getElem?_set_eq_of_lt _ hi
  refine ⟨?_, ?_, hset, ?_⟩
  · simp only [inject_event_response, h1, h2, h3, h4, if_pos h5, h6]
  · simp only [inject_event_response, h1, h2, h3, h4, if_pos h5, h6]
  · intro now2 rq2 hf
    obtain ⟨j, c2, hj, hc2, _⟩ := firstExpired_some_mem now2 _ rq2 hf
    refine ⟨j, c2, ?_, hj, hc2⟩
    intro hji
    rw [hji, hset] at hj
    injection hj with hj1
    rw [← hj1] at hc2
    exact Option.noConfusion hc2

/-- A wire response whose single block record has undecodable hash bytes. -/
def sampleBadResponse : ProtoBlockResponse :=
  { blocks := [{ hash := [], header := [], body := [], receipt := []
               , message_queue := [], justification := []
               , is_empty_justification := false }] }

/-- Witness for C10: a matching but undecodable response on the busy sample
state clears the slot and emits nothing. -/
theorem inject_response_decode_failure_silent_witness :
    (inject_event_response 70 sampleStateBusy 1 10 sampleOriginalRequest
        sampleBadResponse).pending_events = sampleStateBusy.pending_events ∧
    (inject_event_response 70 sampleStateBusy 1 10 sampleOriginalRequest
        sampleBadResponse).peers =
      setPeer sampleStateBusy.peers 1
        ([{ id := 10, ongoing_request := some sampleOngoing }].set 0
          { id := 10, ongoing_request := none }) := by
  have h := inject_response_decode_failure_silent 70 sampleStateBusy 1 10
    sampleOriginalRequest sampleBadResponse
    [{ id := 10, ongoing_request := some sampleOngoing }] 0
    { id := 10, ongoing_request := some sampleOngoing } sampleOngoing ()
    rfl rfl rfl rfl rfl rfl
  exact ⟨h.1, h.2.1⟩

end BlockRequestsModel
